import Mathlib

/-!
Shallow embedding of the `liveview-backend` crate's subscription pipeline
(`src/handlers/ws.rs`, `src/utils.rs`) and proofs checking the specification's
claims against it.  External library behaviour (ABI decoding, URL parsing,
HTTP, the RPC transport) is modelled by explicit oracle parameters; everything
the repository's own code does is translated directly.
-/

namespace LiveView

/-- 20-byte account identifier (alloy `Address`).  The handler only compares
addresses for equality and uses them as map keys, so a natural number model
suffices. -/
abbrev Address := Nat

/-- `U256::MAX`, the `gasLimit` placed on every multicall entry. -/
def uMax : Nat := 2 ^ 256 - 1

/-- Calldata built for one entry of the batch (`erc721.supportsInterface(...)`,
`erc721.name()`, `erc721.symbol()` in `ws.rs`).  The ABI byte encoding is
external alloy library code, so calldata is modelled by which call it encodes
together with the probe's argument bytes. -/
inductive CallData where
  | supportsInterface (interfaceId : List Nat)
  | name
  | symbol
deriving DecidableEq, Repr

/-- One `Multicall::Call { target, gasLimit, callData }`. -/
structure MulticallCall where
  target : Address
  gasLimit : Nat
  callData : CallData
deriving DecidableEq, Repr

/-- The fixed 4-byte interface id `[0x80, 0xac, 0x58, 0xcd]` passed to the
interface-support probe (`ws.rs` line 137). -/
def erc721InterfaceId : List Nat := [0x80, 0xac, 0x58, 0xcd]

/-- The three calls pushed for one address by the loop in `ws.rs` lines
129-152: probe, then name, then symbol, each with `gasLimit = U256::MAX`. -/
def perAddressCalls (addr : Address) : List MulticallCall :=
  [⟨addr, uMax, .supportsInterface erc721InterfaceId⟩,
   ⟨addr, uMax, .name⟩,
   ⟨addr, uMax, .symbol⟩]

/-- The `calls` vector built by iterating the deduplicated address list. -/
def buildCalls : List Address → List MulticallCall
  | [] => []
  | addr :: rest => perAddressCalls addr ++ buildCalls rest

/-- The single batched submission `multicall.multicall(calls)`: all calls for
all addresses travel in this one structure, i.e. one network round trip. -/
structure BatchCall where
  calls : List MulticallCall
deriving DecidableEq, Repr

/-- Wrap the built calls into the one batch that is submitted. -/
def buildBatch (addrs : List Address) : BatchCall := ⟨buildCalls addrs⟩

/-- One `returnData` blob of the multicall response.  The ABI decoders applied
to it (`supportsInterfaceCall` / `nameCall` / `symbolCall`
`abi_decode_returns`) are external alloy code, so a blob is modelled by what
each decoder yields on it; `none` means the decoder returns `Err`. -/
structure RetData where
  decodeBool : Option Bool
  decodeName : Option String
  decodeSymbol : Option String
deriving DecidableEq, Repr

/-- Rust `slice::chunks(3)`: consecutive chunks of three, the last possibly
shorter, never empty. -/
def chunks3 {α : Type} : List α → List (List α)
  | a :: b :: c :: rest => [a, b, c] :: chunks3 rest
  | [] => []
  | [a] => [[a]]
  | [a, b] => [[a, b]]

/-- `TokenData { name, symbol }` from `ws.rs`. -/
structure TokenData where
  name : String
  symbol : String
deriving DecidableEq, Repr

/-- `HashMap::insert` on the session's `token_data` map, modelled on an
association list: replaces the binding when the key is present. -/
def mapInsert : List (Address × TokenData) → Address → TokenData → List (Address × TokenData)
  | [], k, v => [(k, v)]
  | (k₁, v₁) :: rest, k, v =>
      if k₁ = k then (k, v) :: rest else (k₁, v₁) :: mapInsert rest k v

/-- `HashMap::get` on the modelled `token_data` map. -/
def mapLookup : List (Address × TokenData) → Address → Option TokenData
  | [], _ => none
  | (k₁, v₁) :: rest, a => if k₁ = a then some v₁ else mapLookup rest a

/-- Outcome of the result-decoding loop (`ws.rs` lines 175-246).  `panic`
models an out-of-bounds index: the loop reads `res[0]`, `res[1]`, `res[2]` and
`data_addresses[i]` with Rust's panicking index operator. -/
inductive DecodeOutcome where
  | ok (cache : List (Address × TokenData))
  | invalidAddress
  | panic
deriving DecidableEq, Repr

/-- The binding `let interface_res = match ... { Ok(res) => res._0, Err(_) =>
false }` of `ws.rs` lines 182-187: an undecodable probe counts as
unsupported. -/
def interfaceResOf (e : RetData) : Bool :=
  match e.decodeBool with
  | some b => b
  | none => false

/-- The `for (i, res) in multicall_res.chunks(3).enumerate()` loop: decode the
probe (decode failure counts as unsupported), reject the whole request when
unsupported, decode name and symbol (either decode failure rejects), then
insert the descriptor under `data_addresses[i]`.  Indexing is modelled with
`getElem?`, mapping `none` to `panic` exactly where Rust would panic. -/
def decodeGo (dataAddresses : List Address) (i : Nat)
    (chunks : List (List RetData)) (acc : List (Address × TokenData)) : DecodeOutcome :=
  match chunks with
  | [] => .ok acc
  | res :: rest =>
    match res[0]? with
    | none => .panic
    | some e0 =>
      if interfaceResOf e0 = false then .invalidAddress
      else
        match res[1]? with
        | none => .panic
        | some e1 =>
          match e1.decodeName with
          | none => .invalidAddress
          | some nameRes =>
            match res[2]? with
            | none => .panic
            | some e2 =>
              match e2.decodeSymbol with
              | none => .invalidAddress
              | some symbolRes =>
                match dataAddresses[i]? with
                | none => .panic
                | some key =>
                    decodeGo dataAddresses (i + 1) rest (mapInsert acc key ⟨nameRes, symbolRes⟩)

/-- Whether one three-entry result group passes all three checks of the
decoding loop. -/
def chunkPasses (res : List RetData) : Bool :=
  (match res[0]? with
   | some e => interfaceResOf e
   | none => false) &&
  (match res[1]? with | some e => e.decodeName.isSome | none => false) &&
  (match res[2]? with | some e => e.decodeSymbol.isSome | none => false)

/-- Drain order of `.collect::<HashSet<_>>().drain()` (`ws.rs` lines 105-111):
Rust leaves the iteration order of a `HashSet` unspecified, so the model
quantifies over every enumeration of the distinct input addresses. -/
def IsHashSetDrain (input output : List Address) : Prop :=
  output.Nodup ∧ (∀ a ∈ output, a ∈ input) ∧ (∀ a ∈ input, a ∈ output)

instance (input output : List Address) : Decidable (IsHashSetDrain input output) :=
  inferInstanceAs (Decidable (output.Nodup ∧ (∀ a ∈ output, a ∈ input) ∧
    (∀ a ∈ input, a ∈ output)))

/-- Result of the `request` handler up to (and excluding) the streaming loop.
Each error constructor corresponds to exactly one `socket.emit("error", ...)`
followed by `return`, with no task spawned; `streaming` records that
`tokio::spawn` ran, carrying the log-filter address list
(`Filter::new().address(data.addresses)` — the original, undeduplicated input)
and the completed descriptor cache moved into the task. -/
inductive SetupResult where
  | errorEmpty
  | errorTransport
  | errorInvalid
  | errorSubscribe
  | panic
  | streaming (filterAddresses : List Address) (cache : List (Address × TokenData))
deriving DecidableEq, Repr

/-- The `request` handler (`ws.rs` lines 77-274) up to the `tokio::spawn`:
empty-input short circuit, then one application of the external RPC transport
`rpc` to the single batch built from the drained `dedup` list, the
transport-error check, the decoding loop keyed by the same `dedup` list, and
finally `subscribe_logs` on the original address list (outcome `subOk`). -/
def sessionSetup (addresses dedup : List Address)
    (rpc : BatchCall → Option (List RetData)) (subOk : Bool) : SetupResult :=
  if addresses.isEmpty then .errorEmpty
  else
    match rpc (buildBatch dedup) with
    | none => .errorTransport
    | some results =>
      match decodeGo dedup 0 (chunks3 results) [] with
      | .panic => .panic
      | .invalidAddress => .errorInvalid
      | .ok cache =>
        if subOk then .streaming addresses cache else .errorSubscribe

/-- A parsed `url::Url` (the parser is external library code): the scheme, the
optional domain (`url.domain()`), the path (`url.path()`), and the
serialization `url.to_string()`. -/
structure Url where
  scheme : String
  domain : Option String
  path : String
  serialized : String
deriving DecidableEq, Repr

/-- `MetadataType` from `utils.rs`. -/
inductive MetadataType where
  | Url
  | Data
deriving DecidableEq, Repr

/-- `extract_metadata_url` from `utils.rs`, translated clause by clause; the
`?` on `url.domain()` propagates `none` out of the whole function. -/
def extract_metadata_url (url : Url) : Option (String × MetadataType) :=
  let scheme := url.scheme
  if scheme = "http" ∨ scheme = "https" then
    some (url.serialized, MetadataType.Url)
  else if scheme = "ipfs" then
    match url.domain with
    | none => none
    | some d => some ("https://ipfs.io/ipfs/" ++ d ++ url.path, MetadataType.Url)
  else if scheme = "data" then
    some (url.serialized, MetadataType.Data)
  else none

/-- A decoded `ERC721::Transfer` event; the source fields `from` and `to` are
renamed because `from` is a Lean keyword. -/
structure TransferEvent where
  address : Address
  fromAddr : Address
  toAddr : Address
  tokenId : Nat
deriving DecidableEq, Repr

/-- One raw log delivered by the subscription stream; `decoded` is the outcome
of the external `log.log_decode::<ERC721::Transfer>()`. -/
structure RawLog where
  decoded : Option TransferEvent
  block_number : Option Nat
  transaction_hash : Option Nat
deriving DecidableEq, Repr

/-- Per-event external-world outcomes: the `tokenURI` contract call, the `url`
crate parse of the returned string, the `reqwest::get` fetch, the JSON decode
of its body (`image` field), and the `Utc::now` timestamp. -/
structure EventEnv where
  tokenUri : Option String
  parsedUri : Option Url
  httpOk : Bool
  jsonImage : Option String
  now : Nat
deriving DecidableEq, Repr

/-- The outbound `ResponseData` of `ws.rs` (field renames as for
`TransferEvent`). -/
structure ResponseData where
  id : Nat
  address : Address
  name : String
  symbol : String
  fromAddr : Address
  toAddr : Address
  token_id : Nat
  image : Option String
  image_type : Option MetadataType
  block_number : Nat
  transaction_hash : Nat
  timestamp : Nat
deriving DecidableEq, Repr

/-- What one iteration of the streaming loop does with a received log. -/
inductive StepResult where
  | emit (r : ResponseData)
  | skip
  | panic
deriving DecidableEq, Repr

/-- Assemble the `ResponseData` literal of `ws.rs` lines 327-340;
`block_number` and `transaction_hash` use `unwrap_or_default()`. -/
def mkResponse (sid : Nat) (event : TransferEvent) (td : TokenData)
    (image : Option String) (imageType : Option MetadataType)
    (log : RawLog) (now : Nat) : ResponseData :=
  { id := sid, address := event.address, name := td.name, symbol := td.symbol,
    fromAddr := event.fromAddr, toAddr := event.toAddr, token_id := event.tokenId,
    image := image, image_type := imageType,
    block_number := log.block_number.getD 0,
    transaction_hash := log.transaction_hash.getD 0,
    timestamp := now }

/-- Body of the `Some(log) = stream.next()` branch (`ws.rs` lines 285-341):
a log-decode failure skips; a descriptor-cache miss hits `unreachable!()`
(modelled `panic`); `tokenURI` call failure, URI parse failure, HTTP fetch
failure and JSON decode failure each execute `continue` (modelled `skip`); a
URI whose scheme the resolver rejects emits with no image. -/
def processLog (sid : Nat) (cache : List (Address × TokenData))
    (env : EventEnv) (log : RawLog) : StepResult :=
  match log.decoded with
  | none => .skip
  | some event =>
    match mapLookup cache event.address with
    | none => .panic
    | some td =>
      match env.tokenUri with
      | none => .skip
      | some _uri =>
        match env.parsedUri with
        | none => .skip
        | some metadataUrl =>
          match extract_metadata_url metadataUrl with
          | some (_u, MetadataType.Url) =>
            if env.httpOk = false then .skip
            else
              match env.jsonImage with
              | none => .skip
              | some img =>
                  .emit (mkResponse sid event td (some img) (some MetadataType.Url) log env.now)
          | some (u, MetadataType.Data) =>
              .emit (mkResponse sid event td (some u) (some MetadataType.Data) log env.now)
          | none => .emit (mkResponse sid event td none none log env.now)

/-- Whether the watch-channel cancellation is observable at loop iteration `n`
when the disconnect signal arrives just before iteration `cancelAt` (and
`none` when it never arrives).  The flag is monotone: once ready it stays
ready. -/
def cancelReady : Option Nat → Nat → Bool
  | none, _ => false
  | some k, n => decide (k ≤ n)

/-- The spawned streaming loop (`ws.rs` lines 274-346).  `tokio::select!` with
`biased` polls `rx.changed()` before `stream.next()` on every iteration, so a
ready cancellation always wins over buffered logs; `items` is the sequence of
logs the upstream would deliver, each paired with that iteration's external
outcomes; an exhausted stream ends the loop (`else => break`).  Returns the
`response` messages emitted, in order. -/
def streamGo (sid : Nat) (cache : List (Address × TokenData)) (cancelAt : Option Nat)
    (n : Nat) (items : List (EventEnv × RawLog)) : List ResponseData :=
  if cancelReady cancelAt n then []
  else
    match items with
    | [] => []
    | (env, log) :: rest =>
      match processLog sid cache env log with
      | .emit r => r :: streamGo sid cache cancelAt (n + 1) rest
      | .skip => streamGo sid cache cancelAt (n + 1) rest
      | .panic => []

/-! Basic facts about the batch builder. -/

theorem buildCalls_length (addrs : List Address) :
    (buildCalls addrs).length = 3 * addrs.length := by
  induction addrs with
  | nil => rfl
  | cons a rest ih =>
      simp only [buildCalls, perAddressCalls, List.length_append, List.length_cons,
        List.length_nil, ih]
      omega

theorem buildCalls_triples (addrs : List Address) :
    ∀ i a, addrs[i]? = some a →
      (buildCalls addrs)[3 * i]? =
          some ⟨a, uMax, .supportsInterface erc721InterfaceId⟩ ∧
      (buildCalls addrs)[3 * i + 1]? = some ⟨a, uMax, .name⟩ ∧
      (buildCalls addrs)[3 * i + 2]? = some ⟨a, uMax, .symbol⟩ := by
  induction addrs with
  | nil => intro i a h; simp at h
  | cons b rest ih =>
      intro i a h
      cases i with
      | zero =>
          simp only [List.getElem?_cons_zero, Option.some.injEq] at h
          subst h
          refine ⟨?_, ?_, ?_⟩ <;> simp [buildCalls, perAddressCalls]
      | succ j =>
          simp only [List.getElem?_cons_succ] at h
          have hj := ih j a h
          have h3 : (perAddressCalls b).length = 3 := rfl
          have key : ∀ m : Nat, (buildCalls (b :: rest))[m + 3]? = (buildCalls rest)[m]? := by
            intro m
            show (perAddressCalls b ++ buildCalls rest)[m + 3]? = (buildCalls rest)[m]?
            rw [List.getElem?_append_right (by omega)]
            simp [h3]
          have e1 : 3 * (j + 1) = 3 * j + 3 := by omega
          rw [e1]
          have e2 : 3 * j + 3 + 1 = (3 * j + 1) + 3 := by omega
          have e3 : 3 * j + 3 + 2 = (3 * j + 2) + 3 := by omega
          rw [e2, e3, key, key, key]
          exact hj

/-- C6: for every deduplicated address sequence (the claim speaks of non-empty
ones; this holds for all), the single submitted batch contains exactly 3·n
calls, and for the address at index i the entries at positions 3i, 3i+1 and
3i+2 are, in order, the interface-support probe with the fixed 4-byte selector
0x80ac58cd, the name call and the symbol call.  The handler applies its RPC
transport to `buildBatch` exactly once (`sessionSetup`), so the round-trip
count is one regardless of n. -/
theorem C6_batch_shape (addrs : List Address) :
    (buildBatch addrs).calls.length = 3 * addrs.length ∧
    ∀ i a, addrs[i]? = some a →
      (buildBatch addrs).calls[3 * i]? =
          some ⟨a, uMax, .supportsInterface erc721InterfaceId⟩ ∧
      (buildBatch addrs).calls[3 * i + 1]? = some ⟨a, uMax, .name⟩ ∧
      (buildBatch addrs).calls[3 * i + 2]? = some ⟨a, uMax, .symbol⟩ :=
  ⟨buildCalls_length addrs, buildCalls_triples addrs⟩

/-- Witness for C6 at the concrete two-address batch `[5, 7]`. -/
theorem C6_batch_shape_witness :
    (buildBatch [5, 7]).calls.length = 3 * 2 ∧
    (buildBatch [5, 7]).calls[3 * 1 + 1]? = some ⟨7, uMax, .name⟩ :=
  ⟨(C6_batch_shape [5, 7]).1, ((C6_batch_shape [5, 7]).2 1 7 rfl).2.1⟩

/-- C7: `extract_metadata_url` branches by scheme — http/https yield the URI
(its serialization) with kind Url; an ipfs URI with host CID yields the
gateway URL `https://ipfs.io/ipfs/` ++ CID ++ path with kind Url; a data URI
yields the URI itself with kind Data; every other scheme yields none. -/
theorem C7_extract_metadata_url_branches (u : Url) :
    ((u.scheme = "http" ∨ u.scheme = "https") →
        extract_metadata_url u = some (u.serialized, MetadataType.Url)) ∧
    (u.scheme = "ipfs" → ∀ cid, u.domain = some cid →
        extract_metadata_url u =
          some ("https://ipfs.io/ipfs/" ++ cid ++ u.path, MetadataType.Url)) ∧
    (u.scheme = "data" → extract_metadata_url u = some (u.serialized, MetadataType.Data)) ∧
    (u.scheme ≠ "http" → u.scheme ≠ "https" → u.scheme ≠ "ipfs" → u.scheme ≠ "data" →
        extract_metadata_url u = none) := by
  refine ⟨fun h => ?_, fun h cid hd => ?_, fun h => ?_, fun h1 h2 h3 h4 => ?_⟩
  · rcases h with h | h <;> simp [extract_metadata_url, h]
  · simp [extract_metadata_url, h, hd]
  · simp [extract_metadata_url, h]
  · simp [extract_metadata_url, h1, h2, h3, h4]

/-- Witness for C7 on the concrete URI `ipfs://CID/p`. -/
theorem C7_extract_metadata_url_witness :
    extract_metadata_url ⟨"ipfs", some "CID", "/p", "ipfs://CID/p"⟩ =
      some ("https://ipfs.io/ipfs/" ++ "CID" ++ "/p", MetadataType.Url) :=
  (C7_extract_metadata_url_branches ⟨"ipfs", some "CID", "/p", "ipfs://CID/p"⟩).2.1 rfl "CID" rfl

/-- C8: a request with an empty address list yields the single UserInputError
terminal outcome for every RPC transport, drain choice and subscribe outcome —
validation is never consulted, the result is not `streaming`, so no
subscription is opened and no background task is spawned. -/
theorem C8_empty_addresses (dedup : List Address)
    (rpc : BatchCall → Option (List RetData)) (subOk : Bool) :
    sessionSetup [] dedup rpc subOk = .errorEmpty := rfl

/-! The streaming loop: cancellation. -/

theorem streamGo_nil (sid : Nat) (cache : List (Address × TokenData))
    (c : Option Nat) (n : Nat) : streamGo sid cache c n [] = [] := by
  rw [streamGo]
  split <;> rfl

theorem streamGo_cancel_take (sid : Nat) (cache : List (Address × TokenData)) (k : Nat) :
    ∀ (items : List (EventEnv × RawLog)) (n : Nat),
      streamGo sid cache (some k) n items = streamGo sid cache none n (items.take (k - n)) := by
  intro items
  induction items with
  | nil => intro n; simp [streamGo_nil]
  | cons p rest ih =>
      intro n
      obtain ⟨env, log⟩ := p
      by_cases h : k ≤ n
      · have hc : cancelReady (some k) n = true := by simp [cancelReady, h]
        have hk : k - n = 0 := Nat.sub_eq_zero_of_le h
        rw [streamGo.eq_def, hc, hk]
        simp [streamGo_nil]
      · have hc : cancelReady (some k) n = false := by simp [cancelReady, h]
        have hk : k - n = (k - (n + 1)) + 1 := by omega
        rw [hk, List.take_succ_cons, streamGo.eq_def, hc]
        conv_rhs => rw [streamGo.eq_def]
        simp only [cancelReady]
        cases hp : processLog sid cache env log with
        | emit r => simp [hp, ih (n + 1)]
        | skip => simp [hp, ih (n + 1)]
        | panic => simp [hp]

/-- C5: the loop checks the cancellation flag with priority on every
iteration (`tokio::select!` with `biased`), so once the disconnect signal is
observable from iteration k on, the run emits exactly what the uncancelled run
emits on the first k buffered items — zero further responses come from any
later buffered item; in particular a signal already set before the first
iteration yields no response at all, however many events are buffered. -/
theorem C5_cancellation_no_further_emission (sid : Nat)
    (cache : List (Address × TokenData)) (k : Nat) (items : List (EventEnv × RawLog)) :
    streamGo sid cache (some k) 0 items = streamGo sid cache none 0 (items.take k) ∧
    streamGo sid cache (some 0) 0 items = [] := by
  constructor
  · simpa using streamGo_cancel_take sid cache k items 0
  · rw [streamGo.eq_def]
    simp [cancelReady]

/-! The streaming loop: per-event processing. -/

/-- C1: evaluation of the streaming-loop body at a decoded transfer event
(`Transfer(from 0x1, to 0x2, tokenId 7)` at contract address `0x5`) whose
address has no descriptor-cache entry: the code reaches the `unreachable!()`
of `ws.rs` line 294 and panics, killing the background task — it does not log
and skip. -/
theorem C1_cache_miss_panics :
    processLog 0 []
      ⟨some "uri", some ⟨"http", none, "/", "http://x/"⟩, true, some "img", 0⟩
      ⟨some ⟨5, 1, 2, 7⟩, some 3, some 4⟩ = .panic := rfl

/-- C2 as stated fails: at this concrete event the token-URI lookup fails
(`tokenURI` call returns Err), and the loop executes `continue` — the result
is `skip`, i.e. no response message at all is emitted for the event, not an
emission with absent image fields. -/
theorem C2_counterexample :
    processLog 0 [(5, ⟨"Foo", "FOO"⟩)]
      ⟨none, none, true, none, 0⟩
      ⟨some ⟨5, 1, 2, 7⟩, some 3, some 4⟩ = .skip := rfl

/-- C2 amended: when resolving a token's image metadata fails, the event is
dropped, not emitted without an image — token-URI lookup failure, URI parse
failure, HTTP fetch failure and JSON decode failure each yield `skip` (no
response for that one event); a response with the image fields absent is
emitted exactly when the parsed URI's scheme is one the resolver rejects.
Either way the failure is scoped to that single event. -/
theorem C2_amended_failure_drops_event (sid : Nat) (cache : List (Address × TokenData))
    (env : EventEnv) (log : RawLog) (event : TransferEvent) (td : TokenData)
    (hdec : log.decoded = some event)
    (hhit : mapLookup cache event.address = some td) :
    (env.tokenUri = none → processLog sid cache env log = .skip) ∧
    (env.tokenUri.isSome = true → env.parsedUri = none →
        processLog sid cache env log = .skip) ∧
    (∀ u s, env.tokenUri.isSome = true → env.parsedUri = some u →
        extract_metadata_url u = some (s, MetadataType.Url) → env.httpOk = false →
        processLog sid cache env log = .skip) ∧
    (∀ u s, env.tokenUri.isSome = true → env.parsedUri = some u →
        extract_metadata_url u = some (s, MetadataType.Url) → env.jsonImage = none →
        processLog sid cache env log = .skip) ∧
    (∀ u, env.tokenUri.isSome = true → env.parsedUri = some u →
        extract_metadata_url u = none →
        processLog sid cache env log = .emit (mkResponse sid event td none none log env.now)) := by
  refine ⟨fun h => ?_, fun hs h => ?_, fun u s hs hp hm hh => ?_, fun u s hs hp hm hj => ?_,
    fun u hs hp hm => ?_⟩
  · simp [processLog, hdec, hhit, h]
  · obtain ⟨uri, hu⟩ := Option.isSome_iff_exists.1 hs
    simp [processLog, hdec, hhit, hu, h]
  · obtain ⟨uri, hu⟩ := Option.isSome_iff_exists.1 hs
    simp [processLog, hdec, hhit, hu, hp, hm, hh]
  · obtain ⟨uri, hu⟩ := Option.isSome_iff_exists.1 hs
    rcases hb : env.httpOk with _ | _
    · simp [processLog, hdec, hhit, hu, hp, hm, hb]
    · simp [processLog, hdec, hhit, hu, hp, hm, hb, hj]
  · obtain ⟨uri, hu⟩ := Option.isSome_iff_exists.1 hs
    simp [processLog, hdec, hhit, hu, hp, hm]

/-! The validation decode loop: structural lemmas. -/

theorem chunks3_shape {α : Type} (n : Nat) (l : List α) (h : l.length = 3 * n) :
    (chunks3 l).length = n ∧ ∀ c ∈ chunks3 l, c.length = 3 := by
  induction n generalizing l with
  | zero =>
      have : l = [] := by
        cases l with
        | nil => rfl
        | cons a t => simp at h
      subst this
      simp [chunks3]
  | succ m ih =>
      rcases l with _ | ⟨a, _ | ⟨b, _ | ⟨c, rest⟩⟩⟩
      · simp at h
      · simp at h; omega
      · simp at h; omega
      · have hr : rest.length = 3 * m := by simp at h; omega
        obtain ⟨h1, h2⟩ := ih rest hr
        refine ⟨by simp [chunks3, h1], ?_⟩
        intro x hx
        simp only [chunks3, List.mem_cons] at hx
        rcases hx with rfl | hx
        · rfl
        · exact h2 x hx

theorem chunkPasses_parts (res : List RetData) (h : chunkPasses res = true) :
    (∃ e0, res[0]? = some e0 ∧ interfaceResOf e0 = true) ∧
    (∃ e1, res[1]? = some e1 ∧ e1.decodeName.isSome = true) ∧
    (∃ e2, res[2]? = some e2 ∧ e2.decodeSymbol.isSome = true) := by
  simp only [chunkPasses, Bool.and_eq_true] at h
  obtain ⟨⟨h0, h1⟩, h2⟩ := h
  refine ⟨?_, ?_, ?_⟩
  · cases he : res[0]? with
    | none => rw [he] at h0; cases h0
    | some e => rw [he] at h0; exact ⟨e, rfl, h0⟩
  · cases he : res[1]? with
    | none => rw [he] at h1; cases h1
    | some e => rw [he] at h1; exact ⟨e, rfl, h1⟩
  · cases he : res[2]? with
    | none => rw [he] at h2; cases h2
    | some e => rw [he] at h2; exact ⟨e, rfl, h2⟩

theorem mapLookup_mapInsert (m : List (Address × TokenData)) (k a : Address) (v : TokenData) :
    mapLookup (mapInsert m k v) a = if k = a then some v else mapLookup m a := by
  induction m with
  | nil => simp [mapInsert, mapLookup]
  | cons p rest ih =>
      obtain ⟨k₁, v₁⟩ := p
      by_cases h : k₁ = k
      · subst h
        by_cases h2 : k₁ = a <;> simp [mapInsert, mapLookup, h2]
      · by_cases h2 : k₁ = a
        · subst h2
          have : ¬ k = k₁ := fun hh => h hh.symm
          simp [mapInsert, mapLookup, h, this]
        · simp [mapInsert, mapLookup, h, h2, ih]

theorem mem_keys_mapInsert (m : List (Address × TokenData)) (k a : Address) (v : TokenData) :
    a ∈ (mapInsert m k v).map Prod.fst ↔ a = k ∨ a ∈ m.map Prod.fst := by
  induction m with
  | nil => simp [mapInsert]
  | cons p rest ih =>
      obtain ⟨k₁, v₁⟩ := p
      by_cases h : k₁ = k
      · subst h; simp [mapInsert]
      · simp [mapInsert, h, ih]; tauto

theorem mapInsert_keys_nodup (m : List (Address × TokenData)) (k : Address) (v : TokenData)
    (h : (m.map Prod.fst).Nodup) : ((mapInsert m k v).map Prod.fst).Nodup := by
  induction m with
  | nil => simp [mapInsert]
  | cons p rest ih =>
      obtain ⟨k₁, v₁⟩ := p
      simp only [List.map_cons, List.nodup_cons] at h
      obtain ⟨hk₁, hrest⟩ := h
      by_cases hkk : k₁ = k
      · subst hkk
        simp [mapInsert, List.nodup_cons, hk₁, hrest]
      · simp only [mapInsert, hkk, if_false, List.map_cons, List.nodup_cons]
        refine ⟨?_, ih hrest⟩
        rw [mem_keys_mapInsert]
        rintro (rfl | hmem)
        · exact hkk rfl
        · exact hk₁ hmem

/-- Inversion of one successful step of the decoding loop. -/
theorem decodeGo_cons_ok (d : List Address) (res : List RetData)
    (rest : List (List RetData)) (i : Nat) (acc cache : List (Address × TokenData))
    (hok : decodeGo d i (res :: rest) acc = .ok cache) :
    ∃ e0 e1 e2 nm sy key,
      res[0]? = some e0 ∧ interfaceResOf e0 = true ∧
      res[1]? = some e1 ∧ e1.decodeName = some nm ∧
      res[2]? = some e2 ∧ e2.decodeSymbol = some sy ∧
      d[i]? = some key ∧
      decodeGo d (i + 1) rest (mapInsert acc key ⟨nm, sy⟩) = .ok cache := by
  simp only [decodeGo] at hok
  split at hok
  · cases hok
  next e0 he0 =>
    split at hok
    · cases hok
    next hb =>
      have hb : interfaceResOf e0 = true := by
        cases hval : interfaceResOf e0
        · exact absurd hval hb
        · rfl
      split at hok
      · cases hok
      next e1 he1 =>
        split at hok
        · cases hok
        next nm hn =>
          split at hok
          · cases hok
          next e2 he2 =>
            split at hok
            · cases hok
            next sy hs =>
              split at hok
              · cases hok
              next key hkey =>
                exact ⟨e0, e1, e2, nm, sy, key, he0, hb, he1, hn, he2, hs, hkey, hok⟩

theorem decodeGo_invalid (d : List Address) :
    ∀ (cs : List (List RetData)) (i : Nat) (acc : List (Address × TokenData)),
      (∀ ch ∈ cs, ch.length = 3) → i + cs.length ≤ d.length →
      (∃ ch ∈ cs, chunkPasses ch = false) →
      decodeGo d i cs acc = .invalidAddress := by
  intro cs
  induction cs with
  | nil => intro i acc _ _ hex; simp at hex
  | cons res rest ih =>
      intro i acc hlen hle hex
      obtain ⟨e0, e1, e2, rfl⟩ := List.length_eq_three.1 (hlen res (by simp))
      have hcpval : chunkPasses [e0, e1, e2] =
          (interfaceResOf e0 && e1.decodeName.isSome && e2.decodeSymbol.isSome) := rfl
      cases hA : interfaceResOf e0 with
      | false => simp [decodeGo, hA]
      | true =>
        cases hN : e1.decodeName with
        | none => simp [decodeGo, hA, hN]
        | some nm =>
          cases hS : e2.decodeSymbol with
          | none => simp [decodeGo, hA, hN, hS]
          | some sy =>
            have hpass : chunkPasses [e0, e1, e2] = true := by
              rw [hcpval, hA, hN, hS]; simp
            have hi : i < d.length := by simp at hle; omega
            have hkey : d[i]? = some d[i] := List.getElem?_eq_getElem hi
            rcases hex with ⟨ch, hch, hchf⟩
            rcases List.mem_cons.1 hch with rfl | hchr
            · rw [hpass] at hchf; cases hchf
            · have hrec := ih (i + 1) (mapInsert acc d[i] ⟨nm, sy⟩)
                (fun x hx => hlen x (List.mem_cons_of_mem _ hx))
                (by simp at hle ⊢; omega) ⟨ch, hchr, hchf⟩
              simp [decodeGo, hA, hN, hS, hkey, hrec]

theorem decodeGo_no_panic (d : List Address) :
    ∀ (cs : List (List RetData)) (i : Nat) (acc : List (Address × TokenData)),
      (∀ ch ∈ cs, ch.length = 3) → i + cs.length ≤ d.length →
      decodeGo d i cs acc ≠ .panic := by
  intro cs
  induction cs with
  | nil => intro i acc _ _; simp [decodeGo]
  | cons res rest ih =>
      intro i acc hlen hle
      obtain ⟨e0, e1, e2, rfl⟩ := List.length_eq_three.1 (hlen res (by simp))
      have hi : i < d.length := by simp at hle; omega
      have hkey : d[i]? = some d[i] := List.getElem?_eq_getElem hi
      cases hA : interfaceResOf e0 with
      | false => simp [decodeGo, hA]
      | true =>
        cases hN : e1.decodeName with
        | none => simp [decodeGo, hA, hN]
        | some nm =>
          cases hS : e2.decodeSymbol with
          | none => simp [decodeGo, hA, hN, hS]
          | some sy =>
            have hrec := ih (i + 1) (mapInsert acc d[i] ⟨nm, sy⟩)
              (fun x hx => hlen x (List.mem_cons_of_mem _ hx))
              (by simp at hle ⊢; omega)
            simpa [decodeGo, hA, hN, hS, hkey] using hrec

theorem decodeGo_ok_pass (d : List Address) :
    ∀ (cs : List (List RetData)) (i : Nat) (acc cache : List (Address × TokenData)),
      decodeGo d i cs acc = .ok cache → ∀ ch ∈ cs, chunkPasses ch = true := by
  intro cs
  induction cs with
  | nil => intro i acc cache _ ch hch; simp at hch
  | cons res rest ih =>
      intro i acc cache hok ch hch
      obtain ⟨e0, e1, e2, nm, sy, key, he0, hb, he1, hn, he2, hs, _hkey, hrec⟩ :=
        decodeGo_cons_ok d res rest i acc cache hok
      rcases List.mem_cons.1 hch with rfl | hchr
      · simp [chunkPasses, he0, he1, he2, hb, hn, hs]
      · exact ih (i + 1) _ cache hrec ch hchr

theorem decodeGo_ok_lookup (d : List Address) :
    ∀ (cs : List (List RetData)) (i : Nat) (acc cache : List (Address × TokenData)),
      decodeGo d i cs acc = .ok cache →
      ∀ a, ((mapLookup acc a).isSome = true ∨ ∃ j, j < cs.length ∧ d[i + j]? = some a) →
      (mapLookup cache a).isSome = true := by
  intro cs
  induction cs with
  | nil =>
      intro i acc cache hok a ha
      simp only [decodeGo] at hok
      injection hok with h
      subst h
      rcases ha with h | ⟨j, hj, _⟩
      · exact h
      · simp at hj
  | cons res rest ih =>
      intro i acc cache hok a ha
      obtain ⟨e0, e1, e2, nm, sy, key, _he0, _hb, _he1, _hn, _he2, _hs, hkey, hrec⟩ :=
        decodeGo_cons_ok d res rest i acc cache hok
      apply ih (i + 1) _ cache hrec a
      rcases ha with h | ⟨j, hj, hja⟩
      · left
        rw [mapLookup_mapInsert]
        split
        · simp
        · exact h
      · cases j with
        | zero =>
            left
            simp only [Nat.add_zero] at hja
            have hka := hkey.symm.trans hja
            injection hka with hka
            subst hka
            rw [mapLookup_mapInsert]
            simp
        | succ jj =>
            right
            refine ⟨jj, by simp at hj; omega, ?_⟩
            rw [show i + 1 + jj = i + (jj + 1) by omega]
            exact hja

theorem decodeGo_ok_lookup_rev (d : List Address) :
    ∀ (cs : List (List RetData)) (i : Nat) (acc cache : List (Address × TokenData)),
      decodeGo d i cs acc = .ok cache →
      ∀ a, (mapLookup cache a).isSome = true →
      (mapLookup acc a).isSome = true ∨ ∃ j, j < cs.length ∧ d[i + j]? = some a := by
  intro cs
  induction cs with
  | nil =>
      intro i acc cache hok a ha
      simp only [decodeGo] at hok
      injection hok with h
      subst h
      exact Or.inl ha
  | cons res rest ih =>
      intro i acc cache hok a ha
      obtain ⟨e0, e1, e2, nm, sy, key, _he0, _hb, _he1, _hn, _he2, _hs, hkey, hrec⟩ :=
        decodeGo_cons_ok d res rest i acc cache hok
      rcases ih (i + 1) _ cache hrec a ha with h | ⟨j, hj, hja⟩
      · rw [mapLookup_mapInsert] at h
        by_cases hek : key = a
        · subst hek
          right
          exact ⟨0, by simp, by simpa using hkey⟩
        · rw [if_neg hek] at h
          exact Or.inl h
      · right
        refine ⟨j + 1, by simp; omega, ?_⟩
        rw [show i + (j + 1) = i + 1 + j by omega]
        exact hja

theorem decodeGo_ok_nodup (d : List Address) :
    ∀ (cs : List (List RetData)) (i : Nat) (acc cache : List (Address × TokenData)),
      decodeGo d i cs acc = .ok cache →
      (acc.map Prod.fst).Nodup → (cache.map Prod.fst).Nodup := by
  intro cs
  induction cs with
  | nil =>
      intro i acc cache hok hacc
      simp only [decodeGo] at hok
      injection hok with h
      subst h
      exact hacc
  | cons res rest ih =>
      intro i acc cache hok hacc
      obtain ⟨e0, e1, e2, nm, sy, key, _he0, _hb, _he1, _hn, _he2, _hs, _hkey, hrec⟩ :=
        decodeGo_cons_ok d res rest i acc cache hok
      exact ih (i + 1) _ cache hrec (mapInsert_keys_nodup acc key ⟨nm, sy⟩ hacc)

/-- C4: when the batched response is well formed (one entry per submitted
call, i.e. three per deduplicated address) and any address's three-entry group
fails validation — the probe decodes to false or fails to decode, or name or
symbol fails to decode — the whole request ends in the single terminal
`errorInvalid` outcome.  The result is not `streaming`, so no subscription is
opened, no background task is spawned, and no event is ever emitted for any
address of the request, valid ones included (the streaming loop only runs
under a `streaming` result). -/
theorem C4_all_or_nothing (addresses dedup : List Address)
    (rpc : BatchCall → Option (List RetData)) (subOk : Bool) (results : List RetData)
    (hne : addresses ≠ [])
    (hrpc : rpc (buildBatch dedup) = some results)
    (hlen : results.length = 3 * dedup.length)
    (hbad : ∃ ch ∈ chunks3 results, chunkPasses ch = false) :
    sessionSetup addresses dedup rpc subOk = .errorInvalid := by
  obtain ⟨hcl, hc3⟩ := chunks3_shape dedup.length results hlen
  have hdec := decodeGo_invalid dedup (chunks3 results) 0 [] hc3 (by omega) hbad
  have hemp : addresses.isEmpty = false := by
    cases addresses with
    | nil => exact absurd rfl hne
    | cons a t => rfl
  simp [sessionSetup, hemp, hrpc, hdec]

/-- Witness for C4: a concrete two-address request whose second group has a
probe decoding to false is rejected whole. -/
theorem C4_all_or_nothing_witness :
    sessionSetup [1, 2] [1, 2]
      (fun _ => some [⟨some true, some "n1", some "s1"⟩, ⟨some true, some "n1", some "s1"⟩,
        ⟨some true, some "n1", some "s1"⟩, ⟨some false, some "n2", some "s2"⟩,
        ⟨some true, some "n2", some "s2"⟩, ⟨some true, some "n2", some "s2"⟩]) true
      = .errorInvalid :=
  C4_all_or_nothing [1, 2] [1, 2] _ true _ (by decide) rfl (by decide) (by decide)

/-- C10 as stated fails: a return list whose length is not a multiple of three
can panic — here a single-entry list whose probe decodes to true makes the
loop read `res[1]` out of bounds. -/
theorem C10_counterexample :
    decodeGo [1] 0 (chunks3 [⟨some true, some "n", some "s"⟩]) [] = .panic := rfl

/-- C10 amended: the decoding loop performs only in-bounds accesses when the
batched response carries exactly one entry per submitted call (length 3·n for
n deduplicated addresses); for misaligned responses the unchecked `res[1]`,
`res[2]` and `data_addresses[i]` indexing can go out of bounds and panic. -/
theorem C10_amended_no_panic_aligned (dedup : List Address) (results : List RetData)
    (hlen : results.length = 3 * dedup.length) (acc : List (Address × TokenData)) :
    decodeGo dedup 0 (chunks3 results) acc ≠ .panic := by
  obtain ⟨hcl, hc3⟩ := chunks3_shape dedup.length results hlen
  exact decodeGo_no_panic dedup (chunks3 results) 0 acc hc3 (by omega)

/-- Witness for the amended C10 on a concrete aligned response. -/
theorem C10_amended_witness :
    decodeGo [1] 0 (chunks3 [⟨some true, some "n", some "s"⟩,
      ⟨some true, some "n", some "s"⟩, ⟨some true, some "n", some "s"⟩]) [] ≠ .panic :=
  C10_amended_no_panic_aligned [1] _ (by decide) []

theorem getElem?_lt_length {α : Type} {l : List α} {j : Nat} {a : α}
    (h : l[j]? = some a) : j < l.length := by
  by_contra hh
  rw [List.getElem?_eq_none (by omega)] at h
  cases h

/-- C9: when a session reaches the streaming state (with the batched response
well formed: one entry per submitted call), every address of the
log-subscription filter has passed interface validation — it sits at an index
of the deduplicated sequence whose result group's probe decoded to true — and
the descriptor cache handed to the streaming task is already fully populated
(lookup succeeds for every filter address) with at most one entry per
address. -/
theorem C9_streaming_invariants (addresses dedup : List Address)
    (rpc : BatchCall → Option (List RetData)) (subOk : Bool) (results : List RetData)
    (filter : List Address) (cache : List (Address × TokenData))
    (hdrain : IsHashSetDrain addresses dedup)
    (hrpc : rpc (buildBatch dedup) = some results)
    (hlen : results.length = 3 * dedup.length)
    (hstream : sessionSetup addresses dedup rpc subOk = .streaming filter cache) :
    (∀ a ∈ filter, ∃ (i : Nat) (ch : List RetData) (e0 : RetData),
        dedup[i]? = some a ∧ (chunks3 results)[i]? = some ch ∧
        ch[0]? = some e0 ∧ interfaceResOf e0 = true) ∧
    (∀ a ∈ filter, (mapLookup cache a).isSome = true) ∧
    (cache.map Prod.fst).Nodup := by
  obtain ⟨hnd, hsub, hall⟩ := hdrain
  obtain ⟨hcl, hc3⟩ := chunks3_shape dedup.length results hlen
  simp only [sessionSetup, hrpc] at hstream
  split at hstream
  · cases hstream
  · split at hstream
    · cases hstream
    · cases hstream
    next cache₀ hdg =>
      split at hstream
      · injection hstream with hf hc
        subst hf
        subst hc
        refine ⟨?_, ?_, ?_⟩
        · intro a ha
          obtain ⟨i, hi⟩ := List.getElem?_of_mem (hall a ha)
          have hilt : i < dedup.length := getElem?_lt_length hi
          have hich : i < (chunks3 results).length := by omega
          have hch : (chunks3 results)[i]? = some ((chunks3 results)[i]) :=
            List.getElem?_eq_getElem hich
          have hpass := decodeGo_ok_pass dedup (chunks3 results) 0 [] cache₀ hdg
            ((chunks3 results)[i]) (List.getElem_mem hich)
          obtain ⟨⟨e0, he00, he0t⟩, _, _⟩ := chunkPasses_parts _ hpass
          exact ⟨i, (chunks3 results)[i], e0, hi, hch, he00, he0t⟩
        · intro a ha
          obtain ⟨j, hj⟩ := List.getElem?_of_mem (hall a ha)
          have hjlt : j < dedup.length := getElem?_lt_length hj
          exact decodeGo_ok_lookup dedup (chunks3 results) 0 [] cache₀ hdg a
            (Or.inr ⟨j, by omega, by simpa using hj⟩)
        · exact decodeGo_ok_nodup dedup (chunks3 results) 0 [] cache₀ hdg (by simp)
      · cases hstream

/-- Witness for C9 on a concrete one-address session that reaches the
streaming state. -/
theorem C9_streaming_invariants_witness :
    (∀ a ∈ ([7] : List Address), ∃ (i : Nat) (ch : List RetData) (e0 : RetData),
        ([7] : List Address)[i]? = some a ∧
        (chunks3 [(⟨some true, some "N", some "S"⟩ : RetData),
          ⟨some true, some "N", some "S"⟩, ⟨some true, some "N", some "S"⟩])[i]? = some ch ∧
        ch[0]? = some e0 ∧ interfaceResOf e0 = true) ∧
    (∀ a ∈ ([7] : List Address),
        (mapLookup [(7, ⟨"N", "S"⟩)] a).isSome = true) ∧
    (([(7, (⟨"N", "S"⟩ : TokenData))].map Prod.fst).Nodup) :=
  C9_streaming_invariants [7] [7]
    (fun _ => some [⟨some true, some "N", some "S"⟩, ⟨some true, some "N", some "S"⟩,
      ⟨some true, some "N", some "S"⟩]) true
    [⟨some true, some "N", some "S"⟩, ⟨some true, some "N", some "S"⟩,
      ⟨some true, some "N", some "S"⟩]
    [7] [(7, ⟨"N", "S"⟩)]
    (by decide) rfl (by decide) (by decide)

/-! Dedup order. -/

theorem buildCalls_eq_flatMap (l : List Address) :
    buildCalls l = l.flatMap perAddressCalls := by
  induction l with
  | nil => rfl
  | cons a rest ih => simp [buildCalls, ih]

theorem buildCalls_perm {l₁ l₂ : List Address} (h : l₁.Perm l₂) :
    (buildCalls l₁).Perm (buildCalls l₂) := by
  rw [buildCalls_eq_flatMap, buildCalls_eq_flatMap]
  exact h.flatMap_right perAddressCalls

/-- C3 as stated fails: the drain order of the dedup `HashSet` is
unspecified — `[1, 2]` is an admissible drain of the input `[1, 1, 2]` and
`[2, 1]` an admissible drain of `[1, 2]`, yet the two batches differ — so the
inputs `[A, A, B]` and `[A, B]` need not produce identical batches, and the
input order is not necessarily preserved. -/
theorem C3_counterexample :
    IsHashSetDrain [1, 1, 2] [1, 2] ∧ IsHashSetDrain [1, 2] [2, 1] ∧
    buildBatch [1, 2] ≠ buildBatch [2, 1] := by decide

/-- C3 amended: deduplication removes duplicates — an admissible drain lists
exactly the distinct input addresses, each once, though in an unspecified
rather than input-stable order — so the batches built for inputs `[A, A, B]`
and `[A, B]` agree up to permutation (the same calls, three per distinct
address) though not necessarily in the same order; and the drained sequence is
used consistently for batching and lookup: on a successful validation the
descriptor cache resolves exactly the members of the same sequence the batch
was built from. -/
theorem C3_amended_dedup (A B : Address) (d₁ d₂ : List Address)
    (h₁ : IsHashSetDrain [A, A, B] d₁) (h₂ : IsHashSetDrain [A, B] d₂)
    (results : List RetData) (cache : List (Address × TokenData))
    (hok : decodeGo d₁ 0 (chunks3 results) [] = .ok cache)
    (hlen : results.length = 3 * d₁.length) :
    (buildCalls d₁).Perm (buildCalls d₂) ∧
    (∀ a, (mapLookup cache a).isSome = true ↔ a ∈ d₁) := by
  obtain ⟨hnd₁, hin₁, hall₁⟩ := h₁
  obtain ⟨hnd₂, hin₂, hall₂⟩ := h₂
  obtain ⟨hcl, hc3⟩ := chunks3_shape d₁.length results hlen
  constructor
  · apply buildCalls_perm
    rw [List.perm_ext_iff_of_nodup hnd₁ hnd₂]
    intro a
    constructor
    · intro ha
      apply hall₂
      have h3 := hin₁ a ha
      simp only [List.mem_cons, List.not_mem_nil, or_false] at h3 ⊢
      tauto
    · intro ha
      apply hall₁
      have h3 := hin₂ a ha
      simp only [List.mem_cons, List.not_mem_nil, or_false] at h3 ⊢
      tauto
  · intro a
    constructor
    · intro ha
      rcases decodeGo_ok_lookup_rev d₁ (chunks3 results) 0 [] cache hok a ha
        with h | ⟨j, hj, hja⟩
      · simp [mapLookup] at h
      · exact List.mem_iff_getElem?.2 ⟨j, by simpa using hja⟩
    · intro ha
      obtain ⟨j, hj⟩ := List.getElem?_of_mem ha
      have hjlt : j < d₁.length := getElem?_lt_length hj
      exact decodeGo_ok_lookup d₁ (chunks3 results) 0 [] cache hok a
        (Or.inr ⟨j, by omega, by simpa using hj⟩)

/-- Witness for the amended C3 on concrete drains of `[1, 1, 2]` and
`[1, 2]`. -/
theorem C3_amended_witness :
    (buildCalls [1, 2]).Perm (buildCalls [2, 1]) ∧
    (∀ a, (mapLookup [(1, ⟨"n", "s"⟩), (2, ⟨"n", "s"⟩)] a).isSome = true ↔
        a ∈ ([1, 2] : List Address)) :=
  C3_amended_dedup 1 2 [1, 2] [2, 1] (by decide) (by decide)
    [⟨some true, some "n", some "s"⟩, ⟨some true, some "n", some "s"⟩,
     ⟨some true, some "n", some "s"⟩, ⟨some true, some "n", some "s"⟩,
     ⟨some true, some "n", some "s"⟩, ⟨some true, some "n", some "s"⟩]
    [(1, ⟨"n", "s"⟩), (2, ⟨"n", "s"⟩)] rfl (by decide)

/-- Witness for the amended C2: a URI parse failure at a concrete event yields
`skip`. -/
theorem C2_amended_witness :
    processLog 0 [(5, ⟨"Foo", "FOO"⟩)]
      ⟨some "not a uri", none, true, none, 0⟩
      ⟨some ⟨5, 1, 2, 7⟩, some 3, some 4⟩ = .skip :=
  (C2_amended_failure_drops_event 0 [(5, ⟨"Foo", "FOO"⟩)]
    ⟨some "not a uri", none, true, none, 0⟩
    ⟨some ⟨5, 1, 2, 7⟩, some 3, some 4⟩ ⟨5, 1, 2, 7⟩ ⟨"Foo", "FOO"⟩ rfl rfl).2.1 rfl rfl

end LiveView
